import Mathlib

set_option maxHeartbeats 1000000

/-!
Verification development for the quickrad repository: a grid-sweep engine
that builds lookup tables of radiative-transfer outputs by running an
external solver once per point of a Cartesian grid of named axes, and the
configuration data that drives it (`get_lut.py`, `sbdart_info.py`).

The sweep engine itself (`sflux_over_fields` and its helpers) is imported by
`get_lut.py` from the external `quickrad` package and is not present under
`src/`; its definitions below are therefore modelled from the specification
(its §3–§7), as their doc comments state.  The configuration data
(`sbdart_args`, `fields`, `default_params`) is embedded directly from the
source files.
-/

namespace Quickrad

/-- Index tuple addressing one grid point. -/
abbrev Idx := List Nat

/-- First-match association-list lookup, keyed by decidable equality. -/
def alookup {κ β : Type} [DecidableEq κ] (k : κ) : List (κ × β) → Option β
  | [] => none
  | p :: l => if p.1 = k then some p.2 else alookup k l

/-- Position of the first occurrence of `i` in a list (length if absent). -/
def rankOf (i : Idx) : List Idx → Nat
  | [] => 0
  | j :: t => if j = i then 0 else rankOf i t + 1

/-- One named coordinate axis of the sweep: a label and an ordered list of
coordinate values. -/
structure Axis (α : Type) where
  label : String
  values : List α
deriving DecidableEq

/-- Row-major enumeration of all index tuples of a grid with the given axis
lengths (last axis varies fastest). -/
def gridIndices : List Nat → List Idx
  | [] => [[]]
  | n :: ns => (List.range n).flatMap (fun i => (gridIndices ns).map (fun t => i :: t))

/-- Axis lengths of a declared axis list, in declaration order. -/
def axisLens {α : Type} (axes : List (Axis α)) : List Nat :=
  axes.map (fun a => a.values.length)

/-- Modelled from the spec: §4.1 grid validity — all labels unique and no axis
empty. -/
def validAxes {α : Type} (axes : List (Axis α)) : Prop :=
  (axes.map (fun a => a.label)).Nodup ∧ ∀ a ∈ axes, a.values ≠ []

instance {α : Type} [DecidableEq α] (axes : List (Axis α)) : Decidable (validAxes axes) := by
  unfold validAxes
  infer_instance

instance {ε β : Type} [DecidableEq ε] [DecidableEq β] : DecidableEq (Except ε β) := fun a b =>
  match a, b with
  | Except.ok x, Except.ok y =>
      if h : x = y then isTrue (by rw [h]) else isFalse (fun hh => h (by injection hh))
  | Except.error x, Except.error y =>
      if h : x = y then isTrue (by rw [h]) else isFalse (fun hh => h (by injection hh))
  | Except.ok _, Except.error _ => isFalse (fun hh => by injection hh)
  | Except.error _, Except.ok _ => isFalse (fun hh => by injection hh)

/-- Modelled from the spec: an Output Record produced by parsing one solver
response (§3, §4.5; the parser lives in the external `quickrad` engine, not
under `src/`). It carries the channel/shape signature (output-axis names with
their coordinate sequences) and the flattened numeric payload. -/
structure OutRec (α : Type) where
  sig : List (String × List α)
  data : List α
deriving DecidableEq

/-- Modelled from the spec: the fatal error taxonomy of §7 (the engine is not
under `src/`). Per-grid-point failures are not fatal and are logged instead. -/
inductive EngineError : Type where
  | configurationError : EngineError
  | assemblyFailure : EngineError
deriving DecidableEq

/-- Modelled from the spec: the Lookup Table of §3 — labels, matching
coordinate sequences, and a dense value array stored flat in row-major order
with its shape. A missing cell (the NaN sentinel of §4.6) is `none`. -/
structure Table (α : Type) where
  labels : List String
  coords : List (List α)
  shape : List Nat
  values : List (Option α)
deriving DecidableEq

/-- Output-axis lengths of a shape signature. -/
def sigLens {α : Type} (sig : List (String × List α)) : List Nat :=
  sig.map (fun p => p.2.length)

/-- Number of cells in one grid point's output slice. -/
def sigSize {α : Type} (sig : List (String × List α)) : Nat :=
  (sigLens sig).prod

/-- Modelled from the spec: §4.5 — the shape signature is established from the
first successful parse among the completed results, in completion order. -/
def establishSig {α : Type} :
    List (Idx × Except String (OutRec α)) → Option (List (String × List α))
  | [] => none
  | (_, Except.ok r) :: _ => some r.sig
  | (_, Except.error _) :: rest => establishSig rest

/-- Whether one completed result is a usable success: the solver returned a
record whose signature matches the established one and whose payload fills the
slice exactly. -/
def recOk {α : Type} [DecidableEq α] (sig : List (String × List α))
    (res : Except String (OutRec α)) : Bool :=
  match res with
  | Except.ok r => decide (r.sig = sig) && decide (r.data.length = sigSize sig)
  | Except.error _ => false

/-- Payload to be written at one grid point, if that point succeeded. -/
def cellData {α : Type} [DecidableEq α] (results : List (Idx × Except String (OutRec α)))
    (sig : List (String × List α)) (i : Idx) : Option (List α) :=
  match alookup i results with
  | some (Except.ok r) =>
      if r.sig = sig ∧ r.data.length = sigSize sig then some r.data else none
  | _ => none

/-- Modelled from the spec: §4.6 — the dense value array, pre-allocated over
the whole grid with the missing-value sentinel and overwritten slice by slice
from each grid point's parsed result, in row-major grid order. -/
def assembleValues {α : Type} [DecidableEq α] (gridLens : List Nat)
    (sig : List (String × List α)) (results : List (Idx × Except String (OutRec α))) :
    List (Option α) :=
  (gridIndices gridLens).flatMap (fun i =>
    match cellData results sig i with
    | some d => d.map some
    | none => List.replicate (sigSize sig) none)

/-- Modelled from the spec: §4.6 — the failure log: one `(index_tuple, reason)`
entry per failed grid point (solver failure, or parse/shape mismatch). -/
def failLog {α : Type} [DecidableEq α] (sig : List (String × List α))
    (results : List (Idx × Except String (OutRec α))) : List (Idx × String) :=
  results.filterMap (fun p =>
    match p.2 with
    | Except.error e => some (p.1, e)
    | Except.ok r =>
        if r.sig = sig ∧ r.data.length = sigSize sig then none
        else some (p.1, "ParseError"))

/-- Modelled from the spec: §4.6 — assemble the completed results into the
Lookup Table, or report `assemblyFailure` when no grid point succeeded (which
covers the case that no shape signature could be established). -/
def buildTable {α : Type} [DecidableEq α] (axes : List (Axis α))
    (results : List (Idx × Except String (OutRec α))) : Except EngineError (Table α) :=
  match establishSig results with
  | none => Except.error EngineError.assemblyFailure
  | some sig =>
      if results.countP (fun p => recOk sig p.2) = 0 then
        Except.error EngineError.assemblyFailure
      else
        Except.ok
          { labels := axes.map (fun a => a.label) ++ sig.map Prod.fst
            coords := axes.map (fun a => a.values) ++ sig.map Prod.snd
            shape := axisLens axes ++ sigLens sig
            values := assembleValues (axisLens axes) sig results }

/-- Outcome of one whole sweep: the table (or fatal error), the failure log,
and the list of grid points for which a solver invocation was attempted. -/
structure RunOutcome (α : Type) where
  result : Except EngineError (Table α)
  failures : List (Idx × String)
  attempted : List Idx
deriving DecidableEq

/-- Modelled from the spec: §4.4 — the completed results of a run, one solver
invocation per grid point, each response tagged with its index tuple. The
solver (external subprocess plus parser, not under `src/`) is abstracted as a
function from an index tuple to a response. -/
def resultsOf {α : Type} (axes : List (Axis α)) (solver : Idx → Except String (OutRec α)) :
    List (Idx × Except String (OutRec α)) :=
  (gridIndices (axisLens axes)).map (fun i => (i, solver i))

/-- Modelled from the spec: `sflux_over_fields`, the grid-sweep engine imported
from the external `quickrad` package by `get_lut.py` (§4.1–§4.6). It validates
the axis list, attempts exactly one solver invocation per grid point, and
assembles the per-point responses into the Lookup Table. -/
def sflux_over_fields {α : Type} [DecidableEq α] (axes : List (Axis α))
    (solver : Idx → Except String (OutRec α)) : RunOutcome α :=
  if validAxes axes then
    { result := buildTable axes (resultsOf axes solver)
      failures := failLog ((establishSig (resultsOf axes solver)).getD []) (resultsOf axes solver)
      attempted := gridIndices (axisLens axes) }
  else
    { result := Except.error EngineError.configurationError
      failures := []
      attempted := [] }

/-- The output slice of the final value array at grid point `i`, for a table
whose first `k` axes are the grid axes: the contiguous row-major segment of
length (product of output-axis lengths) at the rank of `i` in the grid
enumeration. -/
def sliceAt {α : Type} (t : Table α) (k : Nat) (i : Idx) : List (Option α) :=
  (t.values.drop (rankOf i (gridIndices (t.shape.take k)) * (t.shape.drop k).prod)).take
    ((t.shape.drop k).prod)

/-- Whether every successful response among the completed results carries the
run's established shape signature. -/
def sigsAgree {α : Type} [DecidableEq α]
    (results : List (Idx × Except String (OutRec α))) : Bool :=
  match establishSig results with
  | none => true
  | some s =>
      results.all (fun p =>
        match p.2 with
        | Except.ok r => decide (r.sig = s)
        | Except.error _ => true)

/-- Modelled from the spec: §4.2 Parameter Materializer — overlay one grid
point's per-axis overrides on the baseline parameter mapping. Labels present
in the baseline are overridden in place; labels absent from the baseline are
appended as new entries. A pure function of its arguments: the baseline is
never modified. -/
def materialize {α : Type} (baseline point : List (String × α)) : List (String × α) :=
  baseline.map (fun p =>
    match alookup p.1 point with
    | some v => (p.1, v)
    | none => p) ++
  point.filter (fun q => (alookup q.1 baseline).isNone)

/-- Modelled from the spec: §4.4/§5 — a worker-pool scheduler state: grid
points not yet admitted, grid points currently running in an execution slot,
and grid points whose invocation has completed. -/
structure SchedState : Type where
  pending : List Idx
  running : List Idx
  finished : List Idx
deriving DecidableEq

/-- Modelled from the spec: §4.4 — one scheduler transition under worker count
`w`: either admit a pending grid point (only when an execution slot is free,
i.e. fewer than `w` invocations are running), or complete a running one. -/
inductive SchedStep (w : Nat) : SchedState → SchedState → Prop where
  | launch (i : Idx) (s : SchedState) (hp : i ∈ s.pending) (hw : s.running.length < w) :
      SchedStep w s ⟨s.pending.erase i, i :: s.running, s.finished⟩
  | complete (i : Idx) (s : SchedState) (hr : i ∈ s.running) :
      SchedStep w s ⟨s.pending, s.running.erase i, i :: s.finished⟩

/-- The scheduler's start state: the whole grid pending, nothing running. -/
def initState (gridLens : List Nat) : SchedState :=
  ⟨gridIndices gridLens, [], []⟩

/-- States the scheduler can reach from the start state under worker count
`w`. -/
def Reachable (w : Nat) (gridLens : List Nat) (s : SchedState) : Prop :=
  Relation.ReflTransGen (SchedStep w) (initState gridLens) s

/-- Serialization token for the persisted Lookup Table artifact. -/
inductive Tok (α : Type) : Type where
  | tnat : Nat → Tok α
  | tstr : String → Tok α
  | tval : α → Tok α
  | tmval : Option α → Tok α
deriving DecidableEq

/-- Length-prefixed encoding of a list. -/
def encList {α β : Type} (enc : β → List (Tok α)) (l : List β) : List (Tok α) :=
  Tok.tnat l.length :: l.flatMap enc

/-- Decode exactly `n` consecutive items with `dec`. -/
def decCount {α β : Type} (dec : List (Tok α) → Option (β × List (Tok α))) :
    Nat → List (Tok α) → Option (List β × List (Tok α))
  | 0, ts => some ([], ts)
  | Nat.succ n, ts =>
      match dec ts with
      | none => none
      | some (b, ts1) =>
          match decCount dec n ts1 with
          | none => none
          | some (bs, ts2) => some (b :: bs, ts2)

/-- Decode a length-prefixed list. -/
def decList {α β : Type} (dec : List (Tok α) → Option (β × List (Tok α)))
    (ts : List (Tok α)) : Option (List β × List (Tok α)) :=
  match ts with
  | Tok.tnat n :: ts1 => decCount dec n ts1
  | _ => none

def encStr {α : Type} (s : String) : List (Tok α) := [Tok.tstr s]

def decStr {α : Type} : List (Tok α) → Option (String × List (Tok α))
  | Tok.tstr s :: ts => some (s, ts)
  | _ => none

def encNat {α : Type} (n : Nat) : List (Tok α) := [Tok.tnat n]

def decNat {α : Type} : List (Tok α) → Option (Nat × List (Tok α))
  | Tok.tnat n :: ts => some (n, ts)
  | _ => none

def encVal {α : Type} (a : α) : List (Tok α) := [Tok.tval a]

def decVal {α : Type} : List (Tok α) → Option (α × List (Tok α))
  | Tok.tval a :: ts => some (a, ts)
  | _ => none

def encMVal {α : Type} (a : Option α) : List (Tok α) := [Tok.tmval a]

def decMVal {α : Type} : List (Tok α) → Option (Option α × List (Tok α))
  | Tok.tmval a :: ts => some (a, ts)
  | _ => none

/-- Modelled from the spec: §6 — the persisted Lookup Table artifact, a single
serialized record holding exactly the table's labels, coords, and value array
(the array's shape and flat cell list; persistence itself — `pkl.dump` in
`get_lut.py` — is external library code, not under `src/`). -/
def encTable {α : Type} (t : Table α) : List (Tok α) :=
  encList encStr t.labels ++ encList (encList encVal) t.coords ++
    encList encNat t.shape ++ encList encMVal t.values

/-- Modelled from the spec: §6 — read the persisted artifact back. -/
def decTable {α : Type} (ts : List (Tok α)) : Option (Table α) :=
  match decList decStr ts with
  | none => none
  | some (labels, ts1) =>
      match decList (decList decVal) ts1 with
      | none => none
      | some (coords, ts2) =>
          match decList decNat ts2 with
          | none => none
          | some (shape, ts3) =>
              match decList decMVal ts3 with
              | none => none
              | some (values, ts4) =>
                  match ts4 with
                  | [] => some ⟨labels, coords, shape, values⟩
                  | _ => none

/-- Embedded from `src/get_lut.py`: the static baseline parameter mapping
`sbdart_args` (its uncommented entries, in order), float literals rendered as
rationals. -/
def sbdart_args : List (String × ℚ) :=
  [("btemp", 300), ("isalb", 0), ("albcon", 33 / 100),
   ("wlinf", 2 / 10), ("wlsup", 5), ("wlinc", 2 / 100)]

/-- Embedded from `src/get_lut.py`: the five swept field labels, in declared
order. -/
def fields : List String := ["idatm", "zcloud", "tcloud", "nre", "sza"]

/-- Embedded from `src/sbdart_info.py`: the parameter names (first components)
of the `default_params` entries — the recognized SBDART parameter set. -/
def default_params : List String :=
  ["idatm", "amix", "isat", "wlinf", "wlsup", "wlinc", "sza", "csza", "solfac",
   "nf", "iday", "time", "alat", "alon", "zpres", "pbar", "sclh2o", "uw",
   "uo3", "o3trp", "ztrp", "xrsc", "xn2", "xo2", "xco2", "xch4", "xn2o",
   "xco", "xno2", "xso2", "xnh3", "xno", "xhno3", "xo4", "isalb", "albcon",
   "sc", "zcloud", "tcloud", "lwp", "nre", "rhcld", "krhclr", "jaer", "zaer",
   "taerst", "iaer", "vis", "rhaer", "wlbaer", "tbaer", "abaer", "wbaer",
   "gbaer", "pmaer", "zbaer", "dbaer", "nothrm", "nosct", "kdist", "zgrid1",
   "zgrid2", "ngrid", "zout", "iout", "deltam", "corint", "lamber", "ibcnd",
   "saza", "prnt", "ipth", "fisot", "temis", "nstr", "nzen", "uzen", "vzen",
   "nphi", "phi", "imomc", "imoma", "ttemp", "btemp", "spowder", "idb"]

/-- Modelled from the spec: §4.2 — the fail-fast check that every swept axis
label is a recognized solver parameter. -/
def fieldsRecognized (fs : List String) : Bool :=
  fs.all (fun f => decide (f ∈ default_params))

/-- Concrete 2×3 axis list used by the witnesses. -/
def axesW : List (Axis Nat) := [⟨"a", [10, 20]⟩, ⟨"b", [1, 2, 3]⟩]

/-- Concrete solver for the witnesses: every grid point succeeds with a
two-sample spectrum except point `[1, 2]`, which crashes. -/
def solverW : Idx → Except String (OutRec Nat) := fun i =>
  if i = [1, 2] then Except.error "crash"
  else Except.ok ⟨[("wl", [5, 6])], [100 + i.sum, 200 + i.sum]⟩

/-- The table the witness run produces. -/
def tW : Table Nat :=
  { labels := ["a", "b", "wl"]
    coords := [[10, 20], [1, 2, 3], [5, 6]]
    shape := [2, 3, 2]
    values := [some 100, some 200, some 101, some 201, some 102, some 202,
               some 101, some 201, some 102, some 202, none, none] }

/-- An axis list with the label `"a"` duplicated. -/
def axesDup : List (Axis Nat) := [⟨"a", [1]⟩, ⟨"a", [2]⟩]

/-- A solver succeeding everywhere with a scalar-like one-sample record. -/
def solver0 : Idx → Except String (OutRec Nat) := fun _ =>
  Except.ok ⟨[("wl", [5])], [3]⟩

/-- One-axis grid used by the completion-order counterexample. -/
def axesC4 : List (Axis Nat) := [⟨"a", [10, 20]⟩]

/-- A completed result whose record has a one-cell signature. -/
def resA : Idx × Except String (OutRec Nat) := ([0], Except.ok ⟨[("w", [0])], [7]⟩)

/-- A completed result whose record has a two-cell signature. -/
def resB : Idx × Except String (OutRec Nat) := ([1], Except.ok ⟨[("u", [0, 1])], [8, 9]⟩)

/-- A completed result agreeing with `resA`'s signature. -/
def resC : Idx × Except String (OutRec Nat) := ([1], Except.ok ⟨[("w", [0])], [9]⟩)

theorem alookup_nil {κ β : Type} [DecidableEq κ] (k : κ) :
    alookup k ([] : List (κ × β)) = none := rfl

theorem alookup_cons {κ β : Type} [DecidableEq κ] (k : κ) (p : κ × β) (l : List (κ × β)) :
    alookup k (p :: l) = if p.1 = k then some p.2 else alookup k l := rfl

/-- Lookup distributes over append, preferring the left list. -/
theorem alookup_append {κ β : Type} [DecidableEq κ] (k : κ) (l₁ l₂ : List (κ × β)) :
    alookup k (l₁ ++ l₂) =
      match alookup k l₁ with
      | some v => some v
      | none => alookup k l₂ := by
  induction l₁ with
  | nil => rfl
  | cons p t ih =>
      by_cases h : p.1 = k
      · simp [alookup_cons, h]
      · simp [alookup_cons, h, ih]

/-- Lookup in a pointwise-tagged result list recovers the tagging function. -/
theorem alookup_map_self {κ β : Type} [DecidableEq κ] (f : κ → β) (l : List κ) (k : κ) :
    alookup k (l.map (fun i => (i, f i))) = if k ∈ l then some (f k) else none := by
  induction l with
  | nil => simp [alookup_nil]
  | cons i t ih =>
      by_cases h : i = k
      · subst h
        simp [alookup_cons]
      · have h2 : ¬(k = i) := fun hh => h hh.symm
        simp [alookup_cons, h, ih, List.mem_cons, h2]

theorem rankOf_lt_length {i : Idx} {l : List Idx} (h : i ∈ l) : rankOf i l < l.length := by
  induction l with
  | nil => cases h
  | cons j t ih =>
      by_cases hj : j = i
      · simp [rankOf, hj]
      · have hm : i ∈ t := by
          cases List.mem_cons.mp h with
          | inl he => exact absurd he.symm hj
          | inr hm => exact hm
        simpa [rankOf, hj] using ih hm

theorem get_rankOf {i : Idx} {l : List Idx} (h : i ∈ l) :
    l.get ⟨rankOf i l, rankOf_lt_length h⟩ = i := by
  induction l with
  | nil => cases h
  | cons j t ih =>
      by_cases hj : j = i
      · simp [rankOf, hj]
      · have hm : i ∈ t := by
          cases List.mem_cons.mp h with
          | inl he => exact absurd he.symm hj
          | inr hm => exact hm
        simpa [rankOf, hj] using ih hm

/-- Length of a flatMap whose pieces all have the same length. -/
theorem flatMap_length_const {β γ : Type} (l : List β) (f : β → List γ) (s : Nat)
    (h : ∀ b ∈ l, (f b).length = s) : (l.flatMap f).length = l.length * s := by
  induction l with
  | nil => simp
  | cons b t ih =>
      have hb : (f b).length = s := h b (List.mem_cons_self b t)
      have ht : ∀ x ∈ t, (f x).length = s := fun x hx => h x (List.mem_cons_of_mem b hx)
      simp [List.flatMap_cons, hb, ih ht, Nat.succ_mul, Nat.add_comm]

/-- The contiguous row-major segment of a constant-piece flatMap at position
`j` is exactly the `j`-th piece. -/
theorem flatMap_segment {β γ : Type} (l : List β) (f : β → List γ) (s : Nat)
    (h : ∀ b ∈ l, (f b).length = s) (j : Nat) (hj : j < l.length) :
    ((l.flatMap f).drop (j * s)).take s = f (l.get ⟨j, hj⟩) := by
  induction l generalizing j with
  | nil => cases hj
  | cons b t ih =>
      have hb : (f b).length = s := h b (List.mem_cons_self b t)
      have ht : ∀ x ∈ t, (f x).length = s := fun x hx => h x (List.mem_cons_of_mem b hx)
      cases j with
      | zero =>
          simp only [List.flatMap_cons, Nat.zero_mul, List.drop_zero, List.get]
          rw [← hb, List.take_left]
      | succ j' =>
          have hlen : j' < t.length := Nat.lt_of_succ_lt_succ hj
          have hdrop : (f b ++ t.flatMap f).drop (Nat.succ j' * s) =
              (t.flatMap f).drop (j' * s) := by
            rw [Nat.succ_mul, Nat.add_comm, ← List.drop_drop, ← hb, List.drop_left]
          simp only [List.flatMap_cons, hdrop, List.get]
          exact ih ht j' hlen

theorem gridIndices_nil : gridIndices [] = [[]] := rfl

theorem gridIndices_cons (n : Nat) (ns : List Nat) :
    gridIndices (n :: ns) =
      (List.range n).flatMap (fun i => (gridIndices ns).map (fun t => i :: t)) := rfl

/-- The grid enumeration has exactly (product of axis lengths) entries. -/
theorem gridIndices_length (ls : List Nat) : (gridIndices ls).length = ls.prod := by
  induction ls with
  | nil => rfl
  | cons n ns ih =>
      rw [gridIndices_cons, flatMap_length_const _ _ (gridIndices ns).length
        (fun b _ => List.length_map _ _), List.length_range, ih, List.prod_cons]

/-- Membership in the grid enumeration is exactly pointwise boundedness by the
axis lengths. -/
theorem mem_gridIndices (ls : List Nat) (i : Idx) :
    i ∈ gridIndices ls ↔ List.Forall₂ (· < ·) i ls := by
  induction ls generalizing i with
  | nil =>
      cases i with
      | nil => simp [gridIndices_nil]
      | cons a t => simp [gridIndices_nil]
  | cons n ns ih =>
      cases i with
      | nil =>
          simp [gridIndices_cons]
      | cons a t =>
          constructor
          · intro h
            simp only [gridIndices_cons, List.mem_flatMap, List.mem_map,
              List.mem_range] at h
            obtain ⟨j, hj, u, hu, heq⟩ := h
            rw [← heq]
            exact List.Forall₂.cons hj ((ih u).mp hu)
          · intro h
            cases h with
            | cons ha ht =>
                simp only [gridIndices_cons, List.mem_flatMap, List.mem_map,
                  List.mem_range]
                exact ⟨a, ha, t, (ih t).mpr ht, rfl⟩

/-- The grid enumeration repeats no index tuple. -/
theorem gridIndices_nodup (ls : List Nat) : (gridIndices ls).Nodup := by
  induction ls with
  | nil => simp [gridIndices_nil]
  | cons n ns ih =>
      rw [gridIndices_cons, List.nodup_flatMap]
      refine ⟨fun j _ => ih.map (fun a b hab => by injection hab), ?_⟩
      refine List.Pairwise.imp ?_ (List.nodup_range n)
      intro a b hab
      intro x hxa hxb
      simp only [List.mem_map] at hxa hxb
      obtain ⟨ta, _, rfl⟩ := hxa
      obtain ⟨tb, _, hba⟩ := hxb
      injection hba with h1 h2
      exact hab h1.symm

theorem establishSig_cons_ok {α : Type} (i : Idx) (r : OutRec α)
    (t : List (Idx × Except String (OutRec α))) :
    establishSig ((i, Except.ok r) :: t) = some r.sig := rfl

theorem establishSig_cons_error {α : Type} (i : Idx) (e : String)
    (t : List (Idx × Except String (OutRec α))) :
    establishSig ((i, Except.error e) :: t) = establishSig t := rfl

/-- No signature is established exactly when every response failed. -/
theorem establishSig_eq_none_iff {α : Type} (l : List (Idx × Except String (OutRec α))) :
    establishSig l = none ↔ ∀ p ∈ l, ∀ r : OutRec α, p.2 ≠ Except.ok r := by
  induction l with
  | nil => simp [establishSig]
  | cons p t ih =>
      obtain ⟨i, res⟩ := p
      cases res with
      | ok r =>
          apply iff_of_false
          · simp [establishSig_cons_ok]
          · intro h
            exact h (i, Except.ok r) (List.mem_cons_self _ _) r rfl
      | error e =>
          rw [establishSig_cons_error, ih]
          constructor
          · intro h p hp r
            cases List.mem_cons.mp hp with
            | inl he =>
                rw [he]
                intro hc
                simp at hc
            | inr hm => exact h p hm r
          · intro h p hp r
            exact h p (List.mem_cons_of_mem _ hp) r

/-- If some response succeeded, a signature is established. -/
theorem establishSig_isSome {α : Type} {l : List (Idx × Except String (OutRec α))}
    (h : ∃ p ∈ l, ∃ r : OutRec α, p.2 = Except.ok r) : ∃ s, establishSig l = some s := by
  cases hs : establishSig l with
  | some s => exact ⟨s, rfl⟩
  | none =>
      obtain ⟨p, hp, r, hr⟩ := h
      exact absurd hr ((establishSig_eq_none_iff l).mp hs p hp r)

/-- The established signature is the signature of some successful response. -/
theorem establishSig_some_mem {α : Type} {l : List (Idx × Except String (OutRec α))}
    {s : List (String × List α)} (h : establishSig l = some s) :
    ∃ p ∈ l, ∃ r : OutRec α, p.2 = Except.ok r ∧ r.sig = s := by
  induction l with
  | nil => simp [establishSig] at h
  | cons p t ih =>
      obtain ⟨i, res⟩ := p
      cases res with
      | ok r =>
          rw [establishSig_cons_ok] at h
          injection h with h1
          exact ⟨(i, Except.ok r), List.mem_cons_self _ _, r, rfl, h1⟩
      | error e =>
          rw [establishSig_cons_error] at h
          obtain ⟨q, hq, r, hr, hs⟩ := ih h
          exact ⟨q, List.mem_cons_of_mem _ hq, r, hr, hs⟩

/-- A written cell's payload fills the slice exactly. -/
theorem cellData_some_length {α : Type} [DecidableEq α]
    {results : List (Idx × Except String (OutRec α))} {sig : List (String × List α)}
    {i : Idx} {d : List α} (h : cellData results sig i = some d) :
    d.length = sigSize sig := by
  unfold cellData at h
  split at h
  next r heq =>
    split at h
    next hcond =>
      injection h with hd
      rw [← hd]
      exact hcond.2
    next => simp at h
  next => simp at h

/-- For a run's tagged result list, a grid point's cell is determined by the
solver's response at that point. -/
theorem cellData_resultsOf_none_iff {α : Type} [DecidableEq α]
    (axes : List (Axis α)) (solver : Idx → Except String (OutRec α))
    (sig : List (String × List α)) (i : Idx) (hi : i ∈ gridIndices (axisLens axes)) :
    cellData (resultsOf axes solver) sig i = none ↔ recOk sig (solver i) = false := by
  unfold cellData resultsOf
  rw [alookup_map_self, if_pos hi]
  cases hr : solver i with
  | ok r =>
      by_cases h1 : r.sig = sig
      · by_cases h2 : r.data.length = sigSize sig
        · simp [recOk, h1, h2]
        · simp [recOk, h1, h2]
      · simp [recOk, h1]
  | error e => simp [recOk]

/-- The successful cell payload at a grid point. -/
theorem cellData_resultsOf_ok {α : Type} [DecidableEq α]
    {axes : List (Axis α)} {solver : Idx → Except String (OutRec α)}
    {sig : List (String × List α)} {i : Idx} {r : OutRec α}
    (hi : i ∈ gridIndices (axisLens axes)) (hr : solver i = Except.ok r)
    (hsig : r.sig = sig) (hlen : r.data.length = sigSize sig) :
    cellData (resultsOf axes solver) sig i = some r.data := by
  unfold cellData resultsOf
  rw [alookup_map_self, if_pos hi, hr]
  simp [hsig, hlen]

/-- The assembled value array always covers the whole grid times the
established slice size. -/
theorem assembleValues_length {α : Type} [DecidableEq α] (gridLens : List Nat)
    (sig : List (String × List α)) (results : List (Idx × Except String (OutRec α))) :
    (assembleValues gridLens sig results).length = gridLens.prod * sigSize sig := by
  unfold assembleValues
  rw [flatMap_length_const _ _ (sigSize sig), gridIndices_length]
  intro b _
  cases hc : cellData results sig b with
  | none => simp
  | some d => simp [cellData_some_length hc]

/-- Inversion principle for assembly: a table is produced exactly from an
established signature with at least one usable success, and its fields are
fixed by the axes, the signature, and the per-point cells. -/
theorem buildTable_ok_iff {α : Type} [DecidableEq α] (axes : List (Axis α))
    (results : List (Idx × Except String (OutRec α))) (t : Table α) :
    buildTable axes results = Except.ok t ↔
      ∃ sig, establishSig results = some sig ∧
        results.countP (fun p => recOk sig p.2) ≠ 0 ∧
        t = { labels := axes.map (fun a => a.label) ++ sig.map Prod.fst
              coords := axes.map (fun a => a.values) ++ sig.map Prod.snd
              shape := axisLens axes ++ sigLens sig
              values := assembleValues (axisLens axes) sig results } := by
  unfold buildTable
  cases h : establishSig results with
  | none => simp
  | some sig =>
      dsimp only
      by_cases hc : results.countP (fun p => recOk sig p.2) = 0
      · rw [if_pos hc]
        apply iff_of_false
        · intro he
          simp at he
        · rintro ⟨sig', hs', hcnt, _⟩
          injection hs' with hseq
          subst hseq
          exact hcnt hc
      · rw [if_neg hc]
        constructor
        · intro he
          injection he with he1
          exact ⟨sig, rfl, hc, he1.symm⟩
        · rintro ⟨sig', hs', hcnt, ht⟩
          injection hs' with hseq
          subst hseq
          rw [ht]

/-- A valid axis list makes the run dispatch and assemble the whole grid. -/
theorem sflux_valid_eq {α : Type} [DecidableEq α] (axes : List (Axis α))
    (solver : Idx → Except String (OutRec α)) (hv : validAxes axes) :
    sflux_over_fields axes solver =
      { result := buildTable axes (resultsOf axes solver)
        failures := failLog ((establishSig (resultsOf axes solver)).getD [])
          (resultsOf axes solver)
        attempted := gridIndices (axisLens axes) } := by
  unfold sflux_over_fields
  rw [if_pos hv]

/-- An invalid axis list aborts the run with no invocation attempted. -/
theorem sflux_invalid_eq {α : Type} [DecidableEq α] (axes : List (Axis α))
    (solver : Idx → Except String (OutRec α)) (hv : ¬validAxes axes) :
    sflux_over_fields axes solver =
      { result := Except.error EngineError.configurationError
        failures := []
        attempted := [] } := by
  unfold sflux_over_fields
  rw [if_neg hv]

/-- A produced table implies the axis list was valid. -/
theorem sflux_ok_valid {α : Type} [DecidableEq α] {axes : List (Axis α)}
    {solver : Idx → Except String (OutRec α)} {t : Table α}
    (h : (sflux_over_fields axes solver).result = Except.ok t) : validAxes axes := by
  by_contra hv
  rw [sflux_invalid_eq axes solver hv] at h
  simp at h

/-- C1: for every valid run of the sweep (`sflux_over_fields`), the returned
table satisfies `values.shape[j] == len(coords[j])` for every axis index `j`,
`labels[j]` names `coords[j]` (same count, positionally aligned), and the grid
axes precede the output axes in both `labels` and `coords` in declared order;
in particular `values.shape[0..k-1]` equals the declared axis lengths. The
value array is dense: its cell count is the product of the shape. -/
theorem sweep_table_shape {α : Type} [DecidableEq α] (axes : List (Axis α))
    (solver : Idx → Except String (OutRec α)) (t : Table α)
    (h : (sflux_over_fields axes solver).result = Except.ok t) :
    t.shape = t.coords.map List.length ∧
    t.labels.length = t.coords.length ∧
    t.labels.take axes.length = axes.map (fun a => a.label) ∧
    t.coords.take axes.length = axes.map (fun a => a.values) ∧
    t.shape.take axes.length = axisLens axes ∧
    t.values.length = t.shape.prod := by
  have hv := sflux_ok_valid h
  rw [sflux_valid_eq axes solver hv] at h
  obtain ⟨sig, hsig, hcnt, ht⟩ := (buildTable_ok_iff _ _ _).mp h
  subst ht
  refine ⟨?_, ?_, ?_, ?_, ?_, ?_⟩
  · show axisLens axes ++ sigLens sig =
      (axes.map (fun a => a.values) ++ sig.map Prod.snd).map List.length
    rw [List.map_append, List.map_map, List.map_map]
    rfl
  · simp
  · show (axes.map (fun a => a.label) ++ sig.map Prod.fst).take axes.length = _
    have h1 : (axes.map (fun a => a.label)).length = axes.length := List.length_map _ _
    rw [← h1, List.take_left]
  · show (axes.map (fun a => a.values) ++ sig.map Prod.snd).take axes.length = _
    have h1 : (axes.map (fun a => a.values)).length = axes.length := List.length_map _ _
    rw [← h1, List.take_left]
  · show (axisLens axes ++ sigLens sig).take axes.length = _
    have h1 : (axisLens axes).length = axes.length := List.length_map _ _
    rw [← h1, List.take_left]
  · show (assembleValues (axisLens axes) sig (resultsOf axes solver)).length = _
    rw [assembleValues_length, List.prod_append]
    rfl

/-- Witness for C1 at a concrete 2×3 grid with one failing point. -/
theorem sweep_table_shape_witness :
    (sflux_over_fields axesW solverW).result = Except.ok tW ∧
    tW.shape = tW.coords.map List.length ∧
    tW.labels.length = tW.coords.length ∧
    tW.labels.take axesW.length = axesW.map (fun a => a.label) ∧
    tW.coords.take axesW.length = axesW.map (fun a => a.values) ∧
    tW.shape.take axesW.length = axisLens axesW ∧
    tW.values.length = tW.shape.prod :=
  ⟨by decide, sweep_table_shape axesW solverW tW (by decide)⟩

/-- C2: on a valid axis list, the sweep attempts exactly one solver invocation
per grid point: the attempted index tuples, without duplicates, are exactly the
Cartesian product of the axis index ranges, and the tagged result list pairs
each of them with its one response. -/
theorem sweep_attempts_grid {α : Type} [DecidableEq α] (axes : List (Axis α))
    (solver : Idx → Except String (OutRec α)) (hv : validAxes axes) :
    (sflux_over_fields axes solver).attempted = gridIndices (axisLens axes) ∧
    (sflux_over_fields axes solver).attempted.Nodup ∧
    (∀ i : Idx, i ∈ (sflux_over_fields axes solver).attempted ↔
      List.Forall₂ (· < ·) i (axisLens axes)) ∧
    (sflux_over_fields axes solver).attempted.length = (axisLens axes).prod ∧
    resultsOf axes solver =
      ((sflux_over_fields axes solver).attempted).map (fun i => (i, solver i)) := by
  rw [sflux_valid_eq axes solver hv]
  exact ⟨rfl, gridIndices_nodup _, fun i => mem_gridIndices _ i, gridIndices_length _, rfl⟩

/-- Witness for C2 at the concrete 2×3 grid. -/
theorem sweep_attempts_grid_witness :
    validAxes axesW ∧
    (sflux_over_fields axesW solverW).attempted = gridIndices (axisLens axesW) :=
  ⟨by decide, (sweep_attempts_grid axesW solverW (by decide)).1⟩

/-- C5: any axis list with a duplicated label or a zero-length axis makes the
run fail with `ConfigurationError`, whatever the solver does, with no solver
invocation attempted and nothing logged. -/
theorem invalid_axes_abort {α : Type} [DecidableEq α] (axes : List (Axis α))
    (solver : Idx → Except String (OutRec α))
    (h : ¬(axes.map (fun a => a.label)).Nodup ∨ ∃ a ∈ axes, a.values = []) :
    (sflux_over_fields axes solver).result = Except.error EngineError.configurationError ∧
    (sflux_over_fields axes solver).attempted = [] ∧
    (sflux_over_fields axes solver).failures = [] := by
  have hv : ¬validAxes axes := by
    rintro ⟨h1, h2⟩
    cases h with
    | inl hd => exact hd h1
    | inr he =>
        obtain ⟨a, ha, hae⟩ := he
        exact h2 a ha hae
  rw [sflux_invalid_eq axes solver hv]
  exact ⟨rfl, rfl, rfl⟩

/-- A nonzero success count is the existence of a succeeding grid point. -/
theorem countP_recOk_iff {α : Type} [DecidableEq α] (axes : List (Axis α))
    (solver : Idx → Except String (OutRec α)) (sig : List (String × List α)) :
    (resultsOf axes solver).countP (fun p => recOk sig p.2) ≠ 0 ↔
      ∃ i ∈ gridIndices (axisLens axes), recOk sig (solver i) = true := by
  rw [← Nat.pos_iff_ne_zero, List.countP_pos_iff]
  constructor
  · rintro ⟨p, hp, hrec⟩
    rw [resultsOf, List.mem_map] at hp
    obtain ⟨i, hi, rfl⟩ := hp
    exact ⟨i, hi, hrec⟩
  · rintro ⟨i, hi, hrec⟩
    exact ⟨(i, solver i), List.mem_map.mpr ⟨i, hi, rfl⟩, hrec⟩

/-- C6: on a valid axis list, the sweep produces a table exactly when at least
one grid point succeeds (its response carries the established signature and
fills its slice) — per-point failures elsewhere do not abort the run — and it
fails fatally with `AssemblyFailure` exactly when zero grid points succeed
(which subsumes the case that no shape signature could be established). -/
theorem sweep_failure_policy {α : Type} [DecidableEq α] (axes : List (Axis α))
    (solver : Idx → Except String (OutRec α)) (hv : validAxes axes) :
    ((∃ t, (sflux_over_fields axes solver).result = Except.ok t) ↔
      ∃ i ∈ gridIndices (axisLens axes),
        recOk ((establishSig (resultsOf axes solver)).getD []) (solver i) = true) ∧
    ((sflux_over_fields axes solver).result = Except.error EngineError.assemblyFailure ↔
      ¬∃ i ∈ gridIndices (axisLens axes),
        recOk ((establishSig (resultsOf axes solver)).getD []) (solver i) = true) := by
  rw [sflux_valid_eq axes solver hv]
  dsimp only
  unfold buildTable
  cases hs : establishSig (resultsOf axes solver) with
  | none =>
      have hall := (establishSig_eq_none_iff _).mp hs
      have hno : ¬∃ i ∈ gridIndices (axisLens axes),
          recOk ([] : List (String × List α)) (solver i) = true := by
        rintro ⟨i, hi, hrec⟩
        cases hr : solver i with
        | ok r => exact hall (i, solver i) (List.mem_map.mpr ⟨i, hi, rfl⟩) r hr
        | error e =>
            rw [hr] at hrec
            simp [recOk] at hrec
      rw [Option.getD_none]
      constructor
      · apply iff_of_false
        · rintro ⟨t, ht⟩
          simp at ht
        · exact hno
      · exact iff_of_true rfl hno
  | some s =>
      rw [Option.getD_some]
      dsimp only
      by_cases hc : (resultsOf axes solver).countP (fun p => recOk s p.2) = 0
      · rw [if_pos hc]
        have hnone : ¬∃ i ∈ gridIndices (axisLens axes), recOk s (solver i) = true :=
          fun hex => (countP_recOk_iff axes solver s).mpr hex hc
        constructor
        · apply iff_of_false
          · rintro ⟨t, ht⟩
            simp at ht
          · exact hnone
        · exact iff_of_true rfl hnone
      · rw [if_neg hc]
        have hyes := (countP_recOk_iff axes solver s).mp hc
        constructor
        · exact iff_of_true ⟨_, rfl⟩ hyes
        · apply iff_of_false
          · simp
          · exact fun h => h hyes

/-- Witness for C6: the concrete mixed run (five successes, one crash) still
produces its table. -/
theorem sweep_failure_policy_witness :
    validAxes axesW ∧ (∃ t, (sflux_over_fields axesW solverW).result = Except.ok t) :=
  ⟨by decide,
   (sweep_failure_policy axesW solverW (by decide)).1.mpr
     ⟨[0, 0], by decide, by decide⟩⟩

/-- A failure-log entry exists for a grid point exactly when that point's
response is unusable (solver error, signature mismatch, or short payload). -/
theorem mem_failLog_iff {α : Type} [DecidableEq α] (axes : List (Axis α))
    (solver : Idx → Except String (OutRec α)) (sig : List (String × List α)) (i : Idx) :
    (∃ e, (i, e) ∈ failLog sig (resultsOf axes solver)) ↔
      i ∈ gridIndices (axisLens axes) ∧ recOk sig (solver i) = false := by
  constructor
  · rintro ⟨e, he⟩
    rw [failLog, List.mem_filterMap] at he
    obtain ⟨p, hp, hpe⟩ := he
    rw [resultsOf, List.mem_map] at hp
    obtain ⟨j, hj, rfl⟩ := hp
    dsimp only at hpe
    cases hr : solver j with
    | error er =>
        rw [hr] at hpe
        simp only [Option.some.injEq, Prod.mk.injEq] at hpe
        obtain ⟨h1, h2⟩ := hpe
        subst h1
        refine ⟨hj, ?_⟩
        rw [hr]
        rfl
    | ok r =>
        rw [hr] at hpe
        by_cases hcond : r.sig = sig ∧ r.data.length = sigSize sig
        · rw [show (match Except.ok r with
              | Except.error e => some (j, e)
              | Except.ok r =>
                  if r.sig = sig ∧ r.data.length = sigSize sig then none
                  else some (j, "ParseError")) =
              (if r.sig = sig ∧ r.data.length = sigSize sig then none
               else some (j, "ParseError")) from rfl, if_pos hcond] at hpe
          simp at hpe
        · rw [show (match Except.ok r with
              | Except.error e => some (j, e)
              | Except.ok r =>
                  if r.sig = sig ∧ r.data.length = sigSize sig then none
                  else some (j, "ParseError")) =
              (if r.sig = sig ∧ r.data.length = sigSize sig then none
               else some (j, "ParseError")) from rfl, if_neg hcond] at hpe
          simp only [Option.some.injEq, Prod.mk.injEq] at hpe
          obtain ⟨h1, h2⟩ := hpe
          subst h1
          refine ⟨hj, ?_⟩
          apply Bool.eq_false_iff.mpr
          intro htrue
          rw [hr] at htrue
          simp only [recOk, Bool.and_eq_true, decide_eq_true_eq] at htrue
          exact hcond htrue
  · rintro ⟨hi, hbad⟩
    cases hr : solver i with
    | error er =>
        refine ⟨er, ?_⟩
        rw [failLog, List.mem_filterMap]
        refine ⟨(i, solver i), List.mem_map.mpr ⟨i, hi, rfl⟩, ?_⟩
        dsimp only
        rw [hr]
    | ok r =>
        have hcond : ¬(r.sig = sig ∧ r.data.length = sigSize sig) := by
          intro hc
          rw [hr] at hbad
          simp [recOk, hc.1, hc.2] at hbad
        refine ⟨"ParseError", ?_⟩
        rw [failLog, List.mem_filterMap]
        refine ⟨(i, solver i), List.mem_map.mpr ⟨i, hi, rfl⟩, ?_⟩
        dsimp only
        rw [hr]
        show (if r.sig = sig ∧ r.data.length = sigSize sig then none
          else some (i, "ParseError")) = some (i, "ParseError")
        rw [if_neg hcond]

/-- Every failure-log entry names a grid point of the run. -/
theorem failLog_fst_mem {α : Type} [DecidableEq α] {axes : List (Axis α)}
    {solver : Idx → Except String (OutRec α)} {sig : List (String × List α)}
    {p : Idx × String} (hp : p ∈ failLog sig (resultsOf axes solver)) :
    p.1 ∈ gridIndices (axisLens axes) := by
  rw [failLog, List.mem_filterMap] at hp
  obtain ⟨q, hq, hqe⟩ := hp
  rw [resultsOf, List.mem_map] at hq
  obtain ⟨j, hj, rfl⟩ := hq
  dsimp only at hqe
  cases hr : solver j with
  | error er =>
      rw [hr] at hqe
      injection hqe with h1
      rw [← h1]
      exact hj
  | ok r =>
      rw [hr] at hqe
      by_cases hcond : r.sig = sig ∧ r.data.length = sigSize sig
      · rw [show (match Except.ok r with
            | Except.error e => some (j, e)
            | Except.ok r =>
                if r.sig = sig ∧ r.data.length = sigSize sig then none
                else some (j, "ParseError")) =
            (if r.sig = sig ∧ r.data.length = sigSize sig then none
             else some (j, "ParseError")) from rfl, if_pos hcond] at hqe
        simp at hqe
      · rw [show (match Except.ok r with
            | Except.error e => some (j, e)
            | Except.ok r =>
                if r.sig = sig ∧ r.data.length = sigSize sig then none
                else some (j, "ParseError")) =
            (if r.sig = sig ∧ r.data.length = sigSize sig then none
             else some (j, "ParseError")) from rfl, if_neg hcond] at hqe
        injection hqe with h1
        rw [← h1]
        exact hj

/-- In a run-produced table, the slice of the value array at a grid point is
that point's cell: the parsed payload on success, the all-sentinel block on
failure. -/
theorem sliceAt_run {α : Type} [DecidableEq α] {axes : List (Axis α)}
    {solver : Idx → Except String (OutRec α)} {t : Table α}
    (h : (sflux_over_fields axes solver).result = Except.ok t)
    {sig : List (String × List α)}
    (hs : establishSig (resultsOf axes solver) = some sig)
    (i : Idx) (hi : i ∈ gridIndices (axisLens axes)) :
    sliceAt t axes.length i =
      match cellData (resultsOf axes solver) sig i with
      | some d => d.map some
      | none => List.replicate (sigSize sig) none := by
  have hv := sflux_ok_valid h
  rw [sflux_valid_eq axes solver hv] at h
  obtain ⟨sig', hsig', hcnt, ht⟩ := (buildTable_ok_iff _ _ _).mp h
  rw [hs] at hsig'
  injection hsig' with hseq
  subst hseq
  subst ht
  unfold sliceAt
  dsimp only
  have hlm : (axisLens axes).length = axes.length := List.length_map _ _
  have htake : (axisLens axes ++ sigLens sig).take axes.length = axisLens axes := by
    rw [← hlm, List.take_left]
  have hdrop : (axisLens axes ++ sigLens sig).drop axes.length = sigLens sig := by
    rw [← hlm, List.drop_left]
  rw [htake, hdrop]
  have hlen : ∀ b ∈ gridIndices (axisLens axes),
      ((fun j => match cellData (resultsOf axes solver) sig j with
        | some d => d.map some
        | none => List.replicate (sigSize sig) none) b).length = sigSize sig := by
    intro b _
    show (match cellData (resultsOf axes solver) sig b with
      | some d => d.map some
      | none => List.replicate (sigSize sig) none).length = sigSize sig
    cases hc : cellData (resultsOf axes solver) sig b with
    | none => simp
    | some d => simp [cellData_some_length hc]
  have hseg := flatMap_segment (gridIndices (axisLens axes))
    (fun j => match cellData (resultsOf axes solver) sig j with
      | some d => d.map some
      | none => List.replicate (sigSize sig) none) (sigSize sig) hlen
    (rankOf i (gridIndices (axisLens axes))) (rankOf_lt_length hi)
  rw [get_rankOf hi] at hseg
  exact hseg

/-- C3: in a completed run that produced a table, a grid point's slice of the
value array is the all-sentinel block exactly when that point's invocation or
parse failed, which is exactly when the failure log has an entry for it; and
every failure-log entry names a grid point. (The output slice is assumed
nonempty, else every slice is trivially all-sentinel.) -/
theorem sweep_sentinel_iff_failed {α : Type} [DecidableEq α] (axes : List (Axis α))
    (solver : Idx → Except String (OutRec α)) (t : Table α)
    (h : (sflux_over_fields axes solver).result = Except.ok t)
    (hpos : 0 < (t.shape.drop axes.length).prod) :
    (∀ i ∈ gridIndices (axisLens axes),
      (sliceAt t axes.length i =
          List.replicate ((t.shape.drop axes.length).prod) none ↔
        ∃ e, (i, e) ∈ (sflux_over_fields axes solver).failures)) ∧
    ∀ p ∈ (sflux_over_fields axes solver).failures,
      p.1 ∈ gridIndices (axisLens axes) := by
  have hv := sflux_ok_valid h
  have h0 := h
  rw [sflux_valid_eq axes solver hv] at h
  obtain ⟨sig, hsig, hcnt, ht⟩ := (buildTable_ok_iff _ _ _).mp h
  have hfail : (sflux_over_fields axes solver).failures =
      failLog sig (resultsOf axes solver) := by
    rw [sflux_valid_eq axes solver hv, hsig]
    rfl
  have hdrop : (t.shape.drop axes.length).prod = sigSize sig := by
    rw [ht]
    dsimp only
    have hlm : (axisLens axes).length = axes.length := List.length_map _ _
    rw [← hlm, List.drop_left]
    rfl
  constructor
  · intro i hi
    rw [sliceAt_run h0 hsig i hi, hfail, hdrop]
    cases hc : cellData (resultsOf axes solver) sig i with
    | none =>
        apply iff_of_true rfl
        rw [mem_failLog_iff]
        exact ⟨hi, (cellData_resultsOf_none_iff axes solver sig i hi).mp hc⟩
    | some d =>
        apply iff_of_false
        · intro heq
          have hd : d.length = sigSize sig := cellData_some_length hc
          have h0lt : 0 < d.length := by
            rw [hd]
            rw [hdrop] at hpos
            exact hpos
          have hget := congrArg (fun l => l.get? 0) heq
          simp only [List.get?_eq_getElem?] at hget
          rw [List.getElem?_map, List.getElem?_replicate] at hget
          have hdg : d[0]? = some (d.get ⟨0, h0lt⟩) := by
            rw [List.getElem?_eq_getElem h0lt]
            rfl
          rw [hdg] at hget
          have hsz : 0 < sigSize sig := by
            rw [hdrop] at hpos
            exact hpos
          rw [if_pos hsz] at hget
          simp at hget
        · rw [mem_failLog_iff]
          rintro ⟨_, hbad⟩
          rw [← cellData_resultsOf_none_iff axes solver sig i hi] at hbad
          rw [hc] at hbad
          simp at hbad
  · intro p hp
    rw [hfail] at hp
    exact failLog_fst_mem hp

/-- Witness for C3 at the concrete run: the crashed point `[1, 2]` is exactly
the all-sentinel slice and exactly the logged failure. -/
theorem sweep_sentinel_iff_failed_witness :
    (sflux_over_fields axesW solverW).result = Except.ok tW ∧
    0 < (tW.shape.drop axesW.length).prod ∧
    [1, 2] ∈ gridIndices (axisLens axesW) ∧
    (sliceAt tW axesW.length [1, 2] =
        List.replicate ((tW.shape.drop axesW.length).prod) none ↔
      ∃ e, ([1, 2], e) ∈ (sflux_over_fields axesW solverW).failures) :=
  ⟨by decide, by decide, by decide,
   (sweep_sentinel_iff_failed axesW solverW tW (by decide) (by decide)).1 [1, 2]
     (by decide)⟩

/-- Association lookup is stable under permutation when keys are unique. -/
theorem alookup_perm {κ β : Type} [DecidableEq κ] {l₁ l₂ : List (κ × β)}
    (h : l₁.Perm l₂) (nd : (l₁.map Prod.fst).Nodup) (k : κ) :
    alookup k l₁ = alookup k l₂ := by
  induction h with
  | nil => rfl
  | cons x h ih =>
      rw [List.map_cons] at nd
      have nd' := (List.nodup_cons.mp nd).2
      by_cases hx : x.1 = k <;> simp [alookup_cons, hx, ih nd']
  | swap x y l =>
      rw [List.map_cons, List.map_cons] at nd
      have hxy : y.1 ≠ x.1 := by
        intro he
        apply (List.nodup_cons.mp nd).1
        rw [he]
        exact List.mem_cons_self _ _
      by_cases h1 : y.1 = k
      · by_cases h2 : x.1 = k
        · exact absurd (h1.trans h2.symm) hxy
        · simp [alookup_cons, h1, h2]
      · simp [alookup_cons, h1]
  | trans h1 h2 ih1 ih2 =>
      rw [ih1 nd, ih2 ((h1.map Prod.fst).nodup nd)]

/-- When every success carries the established signature, the established
signature does not depend on completion order. -/
theorem establishSig_perm {α : Type} [DecidableEq α]
    {l₁ l₂ : List (Idx × Except String (OutRec α))}
    (h : l₁.Perm l₂) (hagree : sigsAgree l₁ = true) :
    establishSig l₁ = establishSig l₂ := by
  cases hs1 : establishSig l₁ with
  | none =>
      have hall := (establishSig_eq_none_iff _).mp hs1
      symm
      rw [establishSig_eq_none_iff]
      intro p hp r
      exact hall p (h.mem_iff.mpr hp) r
  | some s =>
      obtain ⟨p, hp, r, hr, hrs⟩ := establishSig_some_mem hs1
      obtain ⟨s2, hs2⟩ := establishSig_isSome ⟨p, h.mem_iff.mp hp, r, hr⟩
      rw [hs2]
      obtain ⟨q, hq, r2, hr2, hr2s⟩ := establishSig_some_mem hs2
      have hq1 : q ∈ l₁ := h.mem_iff.mpr hq
      have hsig2 : r2.sig = s := by
        unfold sigsAgree at hagree
        rw [hs1] at hagree
        have hqa := List.all_eq_true.mp hagree q hq1
        rw [hr2] at hqa
        simpa using hqa
      rw [← hr2s, hsig2]

/-- Per-point cells are stable under permutation of the completed results. -/
theorem cellData_perm {α : Type} [DecidableEq α]
    {l₁ l₂ : List (Idx × Except String (OutRec α))}
    (h : l₁.Perm l₂) (nd : (l₁.map Prod.fst).Nodup)
    (sig : List (String × List α)) (i : Idx) :
    cellData l₁ sig i = cellData l₂ sig i := by
  unfold cellData
  rw [alookup_perm h nd]

/-- The completion-order counterexample to C4 as stated: two completed result
lists that are permutations of one another (same grid, distinct index tuples)
assemble to different tables, because the shape signature is established from
whichever success completes first. -/
theorem sweep_order_counterexample :
    [resA, resB].Perm [resB, resA] ∧
    (([resA, resB].map Prod.fst).Nodup) ∧
    buildTable axesC4 [resA, resB] ≠ buildTable axesC4 [resB, resA] :=
  ⟨List.Perm.swap resB resA [], by decide, by decide⟩

/-- C4 (amended): assembling the same completed results in any completion
order yields the identical table — labels, coords, and values — provided every
successful response carries the run's established shape signature (as §3
requires of a well-formed run); so the final table content is a deterministic
function of the per-point responses, independent of worker count and
completion order. -/
theorem sweep_order_invariant {α : Type} [DecidableEq α] (axes : List (Axis α))
    (results results' : List (Idx × Except String (OutRec α)))
    (hperm : results.Perm results') (nd : (results.map Prod.fst).Nodup)
    (hagree : sigsAgree results = true) :
    buildTable axes results = buildTable axes results' := by
  unfold buildTable
  rw [← establishSig_perm hperm hagree]
  cases hs : establishSig results with
  | none => rfl
  | some sig =>
      dsimp only
      have hassm : assembleValues (axisLens axes) sig results =
          assembleValues (axisLens axes) sig results' := by
        unfold assembleValues
        have hfun : (fun i => match cellData results sig i with
            | some d => d.map some
            | none => List.replicate (sigSize sig) none) =
            (fun i => match cellData results' sig i with
            | some d => d.map some
            | none => List.replicate (sigSize sig) none) := by
          funext i
          rw [cellData_perm hperm nd]
        rw [hfun]
      rw [hassm, hperm.countP_eq]

/-- Witness for amended C4: two agreeing results assembled in either order
give the same table. -/
theorem sweep_order_invariant_witness :
    [resA, resC].Perm [resC, resA] ∧
    (([resA, resC].map Prod.fst).Nodup) ∧
    sigsAgree [resA, resC] = true ∧
    buildTable axesC4 [resA, resC] = buildTable axesC4 [resC, resA] :=
  ⟨List.Perm.swap resC resA [], by decide, by decide,
   sweep_order_invariant axesC4 [resA, resC] [resC, resA]
     (List.Perm.swap resC resA []) (by decide) (by decide)⟩

/-- Decoding a counted run of encoded items recovers them and the trailing
stream. -/
theorem decCount_roundtrip {α β : Type} (dec : List (Tok α) → Option (β × List (Tok α)))
    (enc : β → List (Tok α))
    (hdec : ∀ (b : β) (rest : List (Tok α)), dec (enc b ++ rest) = some (b, rest))
    (l : List β) (rest : List (Tok α)) :
    decCount dec l.length (l.flatMap enc ++ rest) = some (l, rest) := by
  induction l generalizing rest with
  | nil => rfl
  | cons b t ih =>
      rw [List.flatMap_cons, List.append_assoc, List.length_cons]
      show decCount dec (t.length + 1) (enc b ++ (t.flatMap enc ++ rest)) = some (b :: t, rest)
      simp [decCount, hdec, ih]

/-- Decoding a length-prefixed encoded list recovers it and the trailing
stream. -/
theorem decList_roundtrip {α β : Type} (dec : List (Tok α) → Option (β × List (Tok α)))
    (enc : β → List (Tok α))
    (hdec : ∀ (b : β) (rest : List (Tok α)), dec (enc b ++ rest) = some (b, rest))
    (l : List β) (rest : List (Tok α)) :
    decList dec (encList enc l ++ rest) = some (l, rest) := by
  show decList dec (Tok.tnat l.length :: (l.flatMap enc ++ rest)) = some (l, rest)
  unfold decList
  exact decCount_roundtrip dec enc hdec l rest

/-- C7: reading the persisted Lookup Table artifact back reproduces the
labels, coords, and value array (shape and cells) exactly, for every table and
every cell type — the serialization is lossless. -/
theorem table_roundtrip {α : Type} (t : Table α) : decTable (encTable t) = some t := by
  have hstr : ∀ (s : String) (rest : List (Tok α)), decStr (encStr s ++ rest) = some (s, rest) :=
    fun _ _ => rfl
  have hval : ∀ (a : α) (rest : List (Tok α)), decVal (encVal a ++ rest) = some (a, rest) :=
    fun _ _ => rfl
  have hnat : ∀ (n : Nat) (rest : List (Tok α)), decNat (encNat n ++ rest) = some (n, rest) :=
    fun _ _ => rfl
  have hmval : ∀ (a : Option α) (rest : List (Tok α)),
      decMVal (encMVal a ++ rest) = some (a, rest) :=
    fun _ _ => rfl
  have hcoord : ∀ (c : List α) (rest : List (Tok α)),
      decList decVal (encList encVal c ++ rest) = some (c, rest) :=
    fun c rest => decList_roundtrip decVal encVal hval c rest
  unfold encTable decTable
  rw [List.append_assoc, List.append_assoc]
  rw [decList_roundtrip decStr encStr hstr]
  dsimp only
  rw [decList_roundtrip (decList decVal) (encList encVal) hcoord]
  dsimp only
  rw [decList_roundtrip decNat encNat hnat]
  dsimp only
  rw [← List.append_nil (encList encMVal t.values), decList_roundtrip decMVal encMVal hmval]

/-- Lookup in the override part of materialization: an overridden baseline
entry, or the baseline entry itself when the point does not name it. -/
theorem alookup_map_override {α : Type} (b g : List (String × α)) (name : String) :
    alookup name (b.map (fun p =>
      match alookup p.1 g with
      | some v => (p.1, v)
      | none => p)) =
      match alookup name b with
      | some w => some ((alookup name g).getD w)
      | none => none := by
  induction b with
  | nil => rfl
  | cons p t ih =>
      cases hg : alookup p.1 g with
      | some v =>
          by_cases hp : p.1 = name
          · simp [List.map_cons, hg, alookup_cons, hp, hp ▸ hg]
          · simp [List.map_cons, hg, alookup_cons, hp, ih]
      | none =>
          by_cases hp : p.1 = name
          · simp [List.map_cons, hg, alookup_cons, hp, hp ▸ hg]
          · simp [List.map_cons, hg, alookup_cons, hp, ih]

/-- Filtering out point entries shadowed by the baseline does not change
lookups of names absent from the baseline. -/
theorem alookup_filter_fresh {α : Type} (b g : List (String × α)) (name : String)
    (hb : alookup name b = none) :
    alookup name (g.filter (fun q => (alookup q.1 b).isNone)) = alookup name g := by
  induction g with
  | nil => rfl
  | cons q t ih =>
      by_cases hq : q.1 = name
      · have hkeep : (alookup q.1 b).isNone = true := by
          rw [hq, hb]
          rfl
        rw [List.filter_cons, if_pos hkeep, alookup_cons, if_pos hq, alookup_cons, if_pos hq]
      · cases hob : (alookup q.1 b).isNone <;>
          simp [List.filter_cons, hob, alookup_cons, hq, ih]

/-- C8: materialization gives every axis label present in the grid point that
point's value, passes every other baseline entry through unchanged, and — as a
pure function of its two arguments — leaves the baseline itself untouched. -/
theorem materialize_lookup {α : Type} (baseline point : List (String × α)) (name : String) :
    alookup name (materialize baseline point) =
      match alookup name point with
      | some v => some v
      | none => alookup name baseline := by
  unfold materialize
  rw [alookup_append, alookup_map_override]
  cases hb : alookup name baseline with
  | some w =>
      cases hg : alookup name point with
      | some v => simp [hg]
      | none => simp [hg]
  | none =>
      rw [alookup_filter_fresh baseline point name hb]
      cases hg : alookup name point with
      | some v => simp [hg]
      | none => simp [hg]

/-- C10: none of the five swept fields of `get_lut.py` is a key of the
baseline `sbdart_args` mapping, yet each is a recognized solver parameter
(a name in `default_params`); the fail-fast label check succeeds against the
recognized parameter set but would fail against the baseline's keys; and
materializing a grid point for such a field appends it as a new entry, leaving
every baseline entry in place. -/
theorem fields_not_in_baseline :
    (fields.all (fun f => (alookup f sbdart_args).isNone) = true) ∧
    (fields.all (fun f => decide (f ∈ default_params)) = true) ∧
    fieldsRecognized fields = true ∧
    (fields.all (fun f => decide (f ∈ sbdart_args.map Prod.fst)) = false) ∧
    (∀ v : ℚ, fields.map (fun f => materialize sbdart_args [(f, v)]) =
      fields.map (fun f => sbdart_args ++ [(f, v)])) := by
  refine ⟨by decide, by decide, by decide, by decide, ?_⟩
  intro v
  rfl

/-- C9: in every state the scheduler can reach under worker count `w`, at most
`w` solver invocations are running concurrently — a grid point is admitted
only when an execution slot is free, so the peak external-process count is
bounded by `w`. -/
theorem concurrency_bound (w : Nat) (gridLens : List Nat) (s : SchedState)
    (h : Reachable w gridLens s) : s.running.length ≤ w := by
  unfold Reachable at h
  induction h with
  | refl => exact Nat.zero_le w
  | tail hr hstep ih =>
      cases hstep with
      | launch i u hp hw => exact hw
      | complete i u hru =>
          exact le_trans (List.Sublist.length_le (List.erase_sublist _ _)) ih

/-- Witness for C9: the empty trace and a one-admission trace on a 3-point
grid with two workers both respect the bound. -/
theorem concurrency_bound_witness :
    (initState [3]).running.length ≤ 2 ∧
    (SchedState.mk ((initState [3]).pending.erase [0]) ([0] :: (initState [3]).running)
      (initState [3]).finished).running.length ≤ 2 :=
  ⟨concurrency_bound 2 [3] _ Relation.ReflTransGen.refl,
   concurrency_bound 2 [3] _ (Relation.ReflTransGen.single
     (SchedStep.launch [0] (initState [3]) (by decide) (by decide)))⟩

/-- Witness for C5: the label `"a"` supplied twice. -/
theorem invalid_axes_abort_witness :
    (¬((axesDup.map (fun a => a.label)).Nodup) ∨ ∃ a ∈ axesDup, a.values = []) ∧
    (sflux_over_fields axesDup solver0).result = Except.error EngineError.configurationError ∧
    (sflux_over_fields axesDup solver0).attempted = [] :=
  ⟨Or.inl (by decide),
   (invalid_axes_abort axesDup solver0 (Or.inl (by decide))).1,
   (invalid_axes_abort axesDup solver0 (Or.inl (by decide))).2.1⟩

end Quickrad
